import Mathlib

/-!
Shallow embedding of the cart subsystem of `staticfiles/shop/js/scripts.js`
(Earth Store front-end: `Utils.parseEuro` / `Utils.formatEuro` and the
`Cart` module's `computeRow`, `onInput`, `onChange` handlers).

Modelling conventions:
* JavaScript strings are lists of characters (`List Char`).
* JavaScript numbers are exact rationals (`ℚ`); the one reachable NaN
  (`Math.max(0, parseInt(badInput))`) is modelled by `Option`, with `none`
  playing the role of NaN and propagating through arithmetic like NaN does.
* DOM state is explicit: a cart row records its quantity input value, its
  `data-unit` attribute, its `.js-unit` text and its `.js-line-total`
  element; a document records the list of rows and the subtotal element.
-/

unseal Rat.add Rat.mul Rat.inv Rat.sub Rat.ofScientific

namespace Shop

/-- Numeric value of a decimal digit character (its code point minus 48). -/
def digitToNat (c : Char) : ℕ := c.toNat - 48

/-- Value of a big-endian list of decimal digit characters, read the way a
left-to-right decimal parser accumulates them (`acc := 10*acc + digit`). -/
def digitsToNat (l : List Char) : ℕ :=
  l.foldl (fun a c => 10 * a + digitToNat c) 0

/-- First step of `parseEuro`: the character class kept by
`String(str).replace(/[^\d,.-]/g, '')` — digits, comma, dot and minus. -/
def keepEuroChars (l : List Char) : List Char :=
  l.filter (fun c => c.isDigit || c = ',' || c = '.' || c = '-')

/-- Tail condition `(\D|$)` of the thousands-grouping lookahead: end of input
or a non-digit character. -/
def thousandsTail : List Char → Bool
  | [] => true
  | d :: _ => !d.isDigit

/-- The lookahead `(?=\d{3}(\D|$))`: exactly three digits follow, then a
non-digit or the end of the string. -/
def thousandsMatch : List Char → Bool
  | a :: b :: c :: rest => a.isDigit && b.isDigit && c.isDigit && thousandsTail rest
  | _ => false

/-- Second step of `parseEuro`: `.replace(/\.(?=\d{3}(\D|$))/g, '')`, the
left-to-right scan deleting every dot whose lookahead matches.  The lookahead
consumes nothing, so after deleting a dot the scan resumes at the next
character. -/
def dropThousandsDots : List Char → List Char
  | [] => []
  | c :: rest =>
      if c = '.' then
        if thousandsMatch rest then dropThousandsDots rest
        else '.' :: dropThousandsDots rest
      else c :: dropThousandsDots rest

/-- Third step of `parseEuro`: `s.replace(',', '.')` — JavaScript
`String.replace` with a string pattern replaces only the first occurrence. -/
def replaceFirstComma : List Char → List Char
  | [] => []
  | c :: rest => if c = ',' then '.' :: rest else c :: replaceFirstComma rest

/-- Replacing every comma by a dot (the reading "any remaining comma is the
decimal separator" suggests); used by the spec-side parser for claim C5. -/
def replaceAllCommas (l : List Char) : List Char :=
  l.map (fun c => if c = ',' then '.' else c)

/-- JavaScript `parseFloat` on the sign-stripped remainder: the longest prefix
of the form `digits [. digits]` (either digit block may be empty but not
both); `none` models NaN.  Exponents and `Infinity` cannot occur after
`parseEuro`'s character filter, so they are not modelled. -/
def parseUnsigned (l : List Char) : Option ℚ :=
  if (l.dropWhile Char.isDigit).head? = some '.' then
    if (l.takeWhile Char.isDigit).isEmpty &&
        ((l.dropWhile Char.isDigit).tail.takeWhile Char.isDigit).isEmpty then none
    else
      some ((digitsToNat (l.takeWhile Char.isDigit) : ℚ) +
        (digitsToNat ((l.dropWhile Char.isDigit).tail.takeWhile Char.isDigit) : ℚ) /
          10 ^ ((l.dropWhile Char.isDigit).tail.takeWhile Char.isDigit).length)
  else if (l.takeWhile Char.isDigit).isEmpty then none
  else some ((digitsToNat (l.takeWhile Char.isDigit) : ℚ))

/-- JavaScript `parseFloat` restricted to the alphabet that survives
`parseEuro`'s filter: an optional leading minus sign, then an unsigned
decimal literal; `none` models NaN. -/
def parseFloat : List Char → Option ℚ
  | [] => none
  | c :: rest =>
      if c = '-' then (parseUnsigned rest).map (fun q => -q)
      else parseUnsigned (c :: rest)

/-- `Utils.parseEuro` (scripts.js lines 48–54): keep `[\d,.-]`, drop
thousands-grouping dots, turn the first comma into a dot, `parseFloat`,
and coerce a non-finite result to 0. -/
def parseEuro (s : List Char) : ℚ :=
  match parseFloat (replaceFirstComma (dropThousandsDots (keepEuroChars s))) with
  | some q => q
  | none => 0

/-- Modelled from the spec: the parser as §4.1's "Numeric formatting
contract" words it — strip everything except digits, comma, dot and minus,
drop each thousands-grouping dot, treat any remaining comma as the decimal
separator (so every comma becomes a dot), and return 0 when the remainder
does not parse as a finite number. -/
def parseEuroSpec (s : List Char) : ℚ :=
  match parseFloat (replaceAllCommas (dropThousandsDots (keepEuroChars s))) with
  | some q => q
  | none => 0

/-- Little-endian decimal digit characters of `m`, with an explicit fuel
argument (`m` itself suffices) so that the recursion is structural. -/
def natCharsAux : ℕ → ℕ → List Char
  | 0, _ => []
  | _ + 1, 0 => []
  | fuel + 1, m + 1 => Nat.digitChar ((m + 1) % 10) :: natCharsAux fuel ((m + 1) / 10)

/-- Big-endian decimal digit characters of `m` (no grouping), `"0"` for 0. -/
def natChars (m : ℕ) : List Char :=
  if m = 0 then ['0'] else (natCharsAux m m).reverse

/-- A two-digit field (used for the cents part), zero-padded. -/
def twoDigits (c : ℕ) : List Char :=
  [Nat.digitChar (c / 10), Nat.digitChar (c % 10)]

/-- Insert a grouping dot after every three digits of a little-endian digit
list (de-DE thousands grouping, seen from the least significant end). -/
def groupLE : List Char → List Char
  | a :: b :: c :: d :: rest => a :: b :: c :: '.' :: groupLE (d :: rest)
  | [] => []
  | [a] => [a]
  | [a, b] => [a, b]
  | [a, b, c] => [a, b, c]

/-- Big-endian decimal digits of `m` with de-DE thousands-grouping dots. -/
def groupedNatChars (m : ℕ) : List Char :=
  (groupLE (natChars m).reverse).reverse

/-- The no-break space `Intl.NumberFormat` puts before the currency sign. -/
def nbsp : Char := Char.ofNat 160

/-- `new Intl.NumberFormat('de-DE', {style:'currency', currency:'EUR'})`
applied to a (finite) number: round to cents half-away-from-zero, group the
integer part with dots, decimal comma, then a no-break space and `€`. -/
def euroFormat (x : ℚ) : List Char :=
  let n : ℕ := (⌊100 * |x| + 1 / 2⌋).toNat
  (if x < 0 then ['-'] else []) ++
    groupedNatChars (n / 100) ++ ',' :: twoDigits (n % 100) ++ [nbsp, '€']

/-- `Utils.formatEuro` (scripts.js lines 45–46): format the number, with the
`Number.isFinite(n) ? n : 0` guard — `none` (NaN) formats as 0. -/
def formatEuro (o : Option ℚ) : List Char :=
  euroFormat (o.getD 0)

/-- `x.toFixed(2)` for a finite number: sign of `x`, then the magnitude
rounded to cents half-away-from-zero, printed with a dot and two decimals. -/
def fixed2Str (x : ℚ) : List Char :=
  let n : ℕ := (⌊100 * |x| + 1 / 2⌋).toNat
  (if x < 0 then ['-'] else []) ++ natChars (n / 100) ++ '.' :: twoDigits (n % 100)

/-- The string `"NaN"`, which `String(NaN.toFixed(2))` produces. -/
def nanChars : List Char := ['N', 'a', 'N']

/-- `String(total.toFixed(2))` where `total` may be NaN. -/
def toFixed2Str (o : Option ℚ) : List Char :=
  match o with
  | some q => fixed2Str q
  | none => nanChars

/-- `x` rounded to two decimal places, half away from zero for `x ≥ 0` (the
rounding both `toFixed(2)` and the currency formatter apply there). -/
def round2 (x : ℚ) : ℚ :=
  (⌊100 * x + 1 / 2⌋ : ℚ) / 100

/-- JavaScript `parseInt(s, 10)`: skip whitespace, optional sign, then the
leading run of decimal digits; `none` models NaN (no digits found). -/
def parseIntJS (s : List Char) : Option ℤ :=
  let t := s.dropWhile Char.isWhitespace
  let signed : ℤ × List Char :=
    match t with
    | '-' :: r => (-1, r)
    | '+' :: r => (1, r)
    | _ => (1, t)
  let ds := signed.2.takeWhile Char.isDigit
  if ds.isEmpty then none else some (signed.1 * (digitsToNat ds : ℤ))

/-- The `.js-line-total` element of a cart row: its text content and its
`data-value` attribute (`none` = attribute never set). -/
structure LineEl where
  text : List Char
  value : Option (List Char)
deriving DecidableEq, Repr

/-- A cart row (`tr`): the `.js-qty` input's value (`none` = no such input),
the `data-unit` attribute, the `.js-unit` text, the `.js-line-total` element
(each `none` when the node/attribute is absent), and whether the quantity
input sits inside a `form` (needed by the change handler). -/
structure Row where
  qty : Option (List Char)
  unitAttr : Option (List Char)
  unitText : Option (List Char)
  lineEl : Option LineEl
  inForm : Bool
deriving DecidableEq, Repr

/-- The cart page: all rows (these carry every `.js-line-total` element in the
document) and the `#js-cart-subtotal` element's text (`none` = absent). -/
structure Doc where
  rows : List Row
  subText : Option (List Char)
deriving DecidableEq, Repr

/-- `qtyInput?.value || '0'`: a missing input or an empty value (falsy)
yields the string `"0"`. -/
def qtyValueOr0 (tr : Row) : List Char :=
  match tr.qty with
  | some v => if v.isEmpty then ['0'] else v
  | none => ['0']

/-- `Math.max(0, parseInt(qtyInput?.value || '0', 10))` — note that
`Math.max(0, NaN)` is NaN, so a failed parse propagates as `none`. -/
def rowQty (tr : Row) : Option ℤ :=
  (parseIntJS (qtyValueOr0 tr)).map (fun z => max 0 z)

/-- The fallback of the unit-price reader: `.js-unit` text parsed with
`parseEuro`, or 0 when the element is missing. -/
def rowUnitFallback (tr : Row) : ℚ :=
  match tr.unitText with
  | some t => parseEuro t
  | none => 0

/-- The unit price (scripts.js lines 267–272): `data-unit` when truthy (a
nonempty attribute), otherwise the `.js-unit` text fallback. -/
def rowUnit (tr : Row) : ℚ :=
  match tr.unitAttr with
  | some u => if u.isEmpty then rowUnitFallback tr else parseEuro u
  | none => rowUnitFallback tr

/-- `const total = qty * unit` — NaN (from the quantity) propagates. -/
def rowTotal (tr : Row) : Option ℚ :=
  (rowQty tr).map (fun q => (q : ℚ) * rowUnit tr)

/-- The per-row part of `computeRow` (scripts.js lines 263–280): when the
`.js-line-total` element exists, write the formatted total to its text and
`String(total.toFixed(2))` to its `data-value` attribute. -/
def computeRowLine (tr : Row) : Row :=
  match tr.lineEl with
  | none => tr
  | some _ =>
      { tr with lineEl := some ⟨formatEuro (rowTotal tr), some (toFixed2Str (rowTotal tr))⟩ }

/-- One summand of the subtotal loop:
`parseEuro(el.dataset.value || el.textContent || 0)` (the number 0 is
stringified to `"0"` by `parseEuro`). -/
def lineElVal (el : LineEl) : ℚ :=
  parseEuro
    (match el.value with
     | some v => if v.isEmpty then (if el.text.isEmpty then ['0'] else el.text) else v
     | none => if el.text.isEmpty then ['0'] else el.text)

/-- The subtotal accumulation (scripts.js lines 283–285): `let sum = 0` then
`sum += parseEuro(...)` over every `.js-line-total` element in the document. -/
def subtotalSum (rows : List Row) : ℚ :=
  (rows.filterMap Row.lineEl).foldl (fun s el => s + lineElVal el) 0

/-- Replace the `i`-th element of a list by `f` of itself (the DOM mutation of
one row inside the document). -/
def updateAt : ℕ → (Row → Row) → List Row → List Row
  | _, _, [] => []
  | 0, f, r :: rs => f r :: rs
  | i + 1, f, r :: rs => r :: updateAt i f rs

/-- `Cart.computeRow` (scripts.js lines 263–289): update the row's line total
locally, then recompute the subtotal from all rendered line totals and write
it to `#js-cart-subtotal` (when that element exists). -/
def computeRow (d : Doc) (i : ℕ) : Doc :=
  let rows2 := updateAt i computeRowLine d.rows
  { rows := rows2,
    subText := d.subText.map (fun _ => formatEuro (some (subtotalSum rows2))) }

/-- A network side effect: one `postForm` submission. -/
inductive NetRequest
  | postForm
deriving DecidableEq, Repr

/-- `Cart.onInput` (scripts.js lines 292–297): the event target, reduced to
the index of the enclosing cart row when the target is a `.js-qty` input
inside a row (`none` otherwise, in which case the handler returns early);
purely local, no network request. -/
def onInput (d : Doc) (target : Option ℕ) : Doc × List NetRequest :=
  match target with
  | some i => (computeRow d i, [])
  | none => (d, [])

/-- The server's reply to the quantity-change sync, as `onChange` observes
it.  `fail` is a network error or thrown exception (the `catch` path);
`notOk` is any reply without a truthy `ok` flag — a falsy `ok`, a non-JSON
text body, or any malformed value (`data && data.ok` is falsy on all of
them); `ok` carries the four optional fields of the §6 response shape, with
numeric fields modelled by the string `String(·)` produces for them. -/
inductive SyncResp
  | fail
  | notOk
  | ok (lineTotal : Option (List Char)) (lineTotalDisplay : Option (List Char))
      (subtotal : Option (List Char)) (subtotalDisplay : Option (List Char))
deriving DecidableEq, Repr

/-- JavaScript `a || b` for an optional string `a`: `b` when `a` is absent or
empty (falsy), `a` otherwise. -/
def jsOrElse (o : Option (List Char)) (fb : List Char) : List Char :=
  match o with
  | some s => if s.isEmpty then fb else s
  | none => fb

/-- The success branch of `onChange` (scripts.js lines 313–326): when `ok` is
truthy, overwrite the row's line total (if the field and the element are
present) and the subtotal display (likewise), preferring the server's
pre-formatted display strings. -/
def serverApply (d : Doc) (i : ℕ) : SyncResp → Doc
  | .fail => d
  | .notOk => d
  | .ok lt ltd st std =>
      let d2 : Doc :=
        match lt with
        | none => d
        | some v =>
            let q := parseEuro v
            { d with
                rows := updateAt i
                  (fun tr =>
                    match tr.lineEl with
                    | none => tr
                    | some _ => { tr with lineEl := some ⟨jsOrElse ltd (formatEuro (some q)), some (fixed2Str q)⟩ })
                  d.rows }
      match st with
      | none => d2
      | some s =>
          { d2 with subText := d2.subText.map (fun _ => jsOrElse std (formatEuro (some (parseEuro s)))) }

/-- `Cart.onChange` (scripts.js lines 299–330): find the `.js-qty` target, its
row and its form (otherwise return untouched); recompute locally first; then
post the form and apply the server's reply — the `catch` and the falsy-`ok`
branch leave the locally computed state as is. -/
def onChange (d : Doc) (target : Option ℕ) (resp : SyncResp) : Doc × List NetRequest :=
  match target with
  | none => (d, [])
  | some i =>
      match (d.rows[i]?).map Row.inForm with
      | some true => (serverApply (computeRow d i) i resp, [NetRequest.postForm])
      | _ => (d, [])

/-- The `.js-line-total` element of row `i` of a document. -/
def lineElAt (d : Doc) (i : ℕ) : Option LineEl :=
  (d.rows[i]?).bind Row.lineEl

/-- A two-row cart used to exercise the subtotal invariant on a concrete
document. -/
def docC1 : Doc :=
  ⟨[⟨some ("3".toList), some ("12,50".toList), none, some ⟨[], none⟩, true⟩,
    ⟨some ("2".toList), none, some ("4,49 €".toList), some ⟨("4,49 €".toList), some ("4.49".toList)⟩, true⟩],
   some []⟩

/-- A row whose quantity input holds the non-numeric string `"abc"`. -/
def rowC2cex : Row := ⟨some ("abc".toList), some ("12,50".toList), none, some ⟨[], none⟩, true⟩

/-- A row whose quantity input holds the negative string `"-5"`. -/
def rowC2w : Row := ⟨some ("-5".toList), some ("12,50".toList), none, some ⟨[], none⟩, true⟩

/-- A row with quantity 1 and a three-decimal unit price of 0.125 €. -/
def rowC3cex : Row := ⟨some ("1".toList), some ("0,125".toList), none, some ⟨[], none⟩, true⟩

/-- A row with quantity 2 and unit price 1.10 €. -/
def rowC3w : Row := ⟨some ("2".toList), some ("1,10".toList), none, some ⟨[], none⟩, true⟩

/-- The spec's example row: quantity 3, unit price 12.50 €. -/
def rowC4w : Row := ⟨some ("3".toList), some ("12,50".toList), none, some ⟨[], none⟩, true⟩

/-- A one-row document exercising the input handler's frame property. -/
def docC9 : Doc :=
  ⟨[⟨some ("7".toList), some ("2,00".toList), none, some ⟨[], none⟩, true⟩,
    ⟨some ("1".toList), some ("3,00".toList), none, some ⟨[], none⟩, true⟩],
   some []⟩

/-- A one-row document for the failure-path witness of the change handler. -/
def docC7 : Doc :=
  ⟨[⟨some ("4".toList), some ("1,25".toList), none, some ⟨[], none⟩, true⟩], some []⟩

/-- A one-row document for the success-path witness of the change handler. -/
def docC6 : Doc :=
  ⟨[⟨some ("3".toList), some ("12,50".toList), none, some ⟨[], none⟩, true⟩], some []⟩

/- ---------------------------------------------------------------------
Lemmas about the embedding.
--------------------------------------------------------------------- -/

theorem isDigit_digitChar {d : ℕ} (hd : d < 10) : (Nat.digitChar d).isDigit = true := by
  interval_cases d <;> decide

theorem digitToNat_digitChar {d : ℕ} (hd : d < 10) : digitToNat (Nat.digitChar d) = d := by
  interval_cases d <;> decide

theorem digitsToNat_nil : digitsToNat [] = 0 := rfl

theorem digitsToNat_concat (l : List Char) (c : Char) :
    digitsToNat (l ++ [c]) = 10 * digitsToNat l + digitToNat c := by
  unfold digitsToNat
  rw [List.foldl_append]
  rfl

theorem digitsToNat_natCharsAux :
    ∀ (fuel m : ℕ), m ≤ fuel → digitsToNat ((natCharsAux fuel m).reverse) = m
  | 0, m, h => by
      interval_cases m
      rfl
  | fuel + 1, 0, _ => rfl
  | fuel + 1, m + 1, h => by
      have hdiv : (m + 1) / 10 ≤ fuel := by
        have := Nat.div_lt_self (Nat.succ_pos m) (by norm_num : 1 < 10)
        omega
      rw [natCharsAux, List.reverse_cons, digitsToNat_concat,
        digitsToNat_natCharsAux fuel ((m + 1) / 10) hdiv,
        digitToNat_digitChar (Nat.mod_lt _ (by norm_num))]
      omega

theorem digitsToNat_natChars (m : ℕ) : digitsToNat (natChars m) = m := by
  unfold natChars
  rcases eq_or_ne m 0 with rfl | hm
  · rfl
  · rw [if_neg hm]
    exact digitsToNat_natCharsAux m m le_rfl

theorem mem_natCharsAux_isDigit :
    ∀ (fuel m : ℕ) (c : Char), c ∈ natCharsAux fuel m → c.isDigit = true
  | 0, _, _, h => by simp [natCharsAux] at h
  | fuel + 1, 0, _, h => by simp [natCharsAux] at h
  | fuel + 1, m + 1, c, h => by
      rw [natCharsAux, List.mem_cons] at h
      rcases h with rfl | h
      · exact isDigit_digitChar (Nat.mod_lt _ (by norm_num))
      · exact mem_natCharsAux_isDigit fuel ((m + 1) / 10) c h

theorem mem_natChars_isDigit (m : ℕ) (c : Char) (h : c ∈ natChars m) : c.isDigit = true := by
  unfold natChars at h
  rcases eq_or_ne m 0 with rfl | hm
  · simp at h
    simp [h]
  · rw [if_neg hm, List.mem_reverse] at h
    exact mem_natCharsAux_isDigit m m c h

theorem natChars_ne_nil (m : ℕ) : natChars m ≠ [] := by
  unfold natChars
  rcases eq_or_ne m 0 with rfl | hm
  · simp
  · rw [if_neg hm]
    obtain ⟨k, rfl⟩ := Nat.exists_eq_succ_of_ne_zero hm
    simp [natCharsAux]

theorem digitsToNat_twoDigits {v : ℕ} (hv : v < 100) : digitsToNat (twoDigits v) = v := by
  show digitsToNat ([Nat.digitChar (v / 10)] ++ [Nat.digitChar (v % 10)]) = v
  rw [digitsToNat_concat]
  show 10 * digitsToNat ([] ++ [Nat.digitChar (v / 10)]) + _ = v
  rw [digitsToNat_concat]
  rw [digitToNat_digitChar (Nat.mod_lt _ (by norm_num)),
    digitToNat_digitChar (by omega : v / 10 < 10)]
  simp [digitsToNat_nil]
  omega

theorem mem_twoDigits_isDigit {v : ℕ} (hv : v < 100) (c : Char) (h : c ∈ twoDigits v) :
    c.isDigit = true := by
  unfold twoDigits at h
  rcases List.mem_cons.mp h with rfl | h2
  · exact isDigit_digitChar (by omega : v / 10 < 10)
  · rcases List.mem_cons.mp h2 with rfl | h3
    · exact isDigit_digitChar (Nat.mod_lt _ (by norm_num))
    · simp at h3

theorem takeWhile_all_append {p : Char → Bool} :
    ∀ {l1 : List Char} (l2 : List Char), (∀ a ∈ l1, p a = true) →
      (l1 ++ l2).takeWhile p = l1 ++ l2.takeWhile p
  | [], l2, _ => rfl
  | a :: t, l2, h => by
      have ha : p a = true := h a (by simp)
      simp only [List.cons_append, List.takeWhile_cons, ha, if_true]
      rw [takeWhile_all_append l2 (fun b hb => h b (by simp [hb]))]

theorem dropWhile_all_append {p : Char → Bool} :
    ∀ {l1 : List Char} (l2 : List Char), (∀ a ∈ l1, p a = true) →
      (l1 ++ l2).dropWhile p = l2.dropWhile p
  | [], l2, _ => rfl
  | a :: t, l2, h => by
      have ha : p a = true := h a (by simp)
      simp only [List.cons_append, List.dropWhile_cons, ha, if_true]
      exact dropWhile_all_append l2 (fun b hb => h b (by simp [hb]))

theorem takeWhile_all_eq_self {p : Char → Bool} {l : List Char} (h : ∀ a ∈ l, p a = true) :
    l.takeWhile p = l := by
  have := takeWhile_all_append ([] : List Char) h
  simpa using this

theorem isDigit_ne_dot {c : Char} (h : c.isDigit = true) : c ≠ '.' := by
  intro hc
  subst hc
  simp at h

theorem isDigit_ne_comma {c : Char} (h : c.isDigit = true) : c ≠ ',' := by
  intro hc
  subst hc
  simp at h

theorem isDigit_ne_minus {c : Char} (h : c.isDigit = true) : c ≠ '-' := by
  intro hc
  subst hc
  simp at h

theorem dropThousandsDots_digits_append (ds s : List Char)
    (h : ∀ a ∈ ds, a.isDigit = true) :
    dropThousandsDots (ds ++ s) = ds ++ dropThousandsDots s := by
  induction ds with
  | nil => rfl
  | cons a t ih =>
      have ha : a.isDigit = true := h a (by simp)
      rw [List.cons_append, dropThousandsDots, if_neg (isDigit_ne_dot ha),
        ih (fun b hb => h b (by simp [hb])), List.cons_append]

theorem replaceFirstComma_nocomma {l : List Char} (h : ∀ a ∈ l, a ≠ ',') :
    replaceFirstComma l = l := by
  induction l with
  | nil => rfl
  | cons a t ih =>
      rw [replaceFirstComma, if_neg (h a (by simp)), ih (fun b hb => h b (by simp [hb]))]

theorem keepEuroChars_all {l : List Char}
    (h : ∀ a ∈ l, (a.isDigit || a = ',' || a = '.' || a = '-') = true) :
    keepEuroChars l = l := by
  unfold keepEuroChars
  exact List.filter_eq_self.mpr h

theorem parseUnsigned_digits_dot (ip cents : List Char) (hne : ip ≠ [])
    (hip : ∀ c ∈ ip, c.isDigit = true) (hc : ∀ c ∈ cents, c.isDigit = true) :
    parseUnsigned (ip ++ '.' :: cents) =
      some ((digitsToNat ip : ℚ) + (digitsToNat cents : ℚ) / 10 ^ cents.length) := by
  have h1 : List.takeWhile Char.isDigit ('.' :: cents) = [] := by
    simp [List.takeWhile_cons]
  have h2 : List.dropWhile Char.isDigit ('.' :: cents) = '.' :: cents := by
    simp [List.dropWhile_cons]
  unfold parseUnsigned
  rw [dropWhile_all_append _ hip, h2, takeWhile_all_append _ hip, h1, List.append_nil]
  simp only [List.head?_cons, List.tail_cons]
  rw [if_pos trivial, takeWhile_all_eq_self hc,
    if_neg (by simp [hne, List.isEmpty_iff])]

theorem parseFloat_digits_dot (ip cents : List Char) (hne : ip ≠ [])
    (hip : ∀ c ∈ ip, c.isDigit = true) (hc : ∀ c ∈ cents, c.isDigit = true) :
    parseFloat (ip ++ '.' :: cents) =
      some ((digitsToNat ip : ℚ) + (digitsToNat cents : ℚ) / 10 ^ cents.length) := by
  obtain ⟨a, t, rfl⟩ := List.exists_cons_of_ne_nil hne
  rw [List.cons_append, parseFloat,
    if_neg (by simpa using isDigit_ne_minus (hip a (by simp))), ← List.cons_append]
  exact parseUnsigned_digits_dot _ _ hne hip hc

theorem natCast_div_add_mod_div (n : ℕ) :
    ((n / 100 : ℕ) : ℚ) + ((n % 100 : ℕ) : ℚ) / 10 ^ (2 : ℕ) = (n : ℚ) / 100 := by
  have h := Nat.div_add_mod n 100
  have h100 : ((100 * (n / 100) + n % 100 : ℕ) : ℚ) = (n : ℚ) := by
    rw [h]
  push_cast at h100
  norm_num
  linarith

theorem natCast_div_add_mod_div_q (n : ℕ) :
    ((n / 100 : ℕ) : ℚ) + ((n % 100 : ℕ) : ℚ) / 100 = (n : ℚ) / 100 := by
  have h100 : ((100 * (n / 100) + n % 100 : ℕ) : ℚ) = (n : ℚ) := by
    rw [Nat.div_add_mod]
  push_cast at h100
  linarith

theorem parseEuro_fixed2Str_nonneg (x : ℚ) (hx : 0 ≤ x) :
    parseEuro (fixed2Str x) = round2 x := by
  have hxabs : |x| = x := abs_of_nonneg hx
  have hfl : (0 : ℤ) ≤ ⌊100 * x + 1 / 2⌋ := by
    apply Int.floor_nonneg.mpr
    positivity
  set n : ℕ := (⌊100 * |x| + 1 / 2⌋).toNat with hn
  have hstr : fixed2Str x = natChars (n / 100) ++ '.' :: twoDigits (n % 100) := by
    unfold fixed2Str
    rw [if_neg (not_lt.mpr hx)]
    rfl
  have hipd : ∀ c ∈ natChars (n / 100), c.isDigit = true := mem_natChars_isDigit _
  have hcd : ∀ c ∈ twoDigits (n % 100), c.isDigit = true :=
    mem_twoDigits_isDigit (Nat.mod_lt _ (by norm_num))
  have hkeep : keepEuroChars (fixed2Str x) = fixed2Str x := by
    apply keepEuroChars_all
    intro a ha
    rw [hstr] at ha
    rcases List.mem_append.mp ha with h | h
    · simp [hipd a h]
    · rcases List.mem_cons.mp h with rfl | h
      · simp
      · simp [hcd a h]
  have hdots : dropThousandsDots (fixed2Str x) = fixed2Str x := by
    rw [hstr, dropThousandsDots_digits_append _ _ hipd]
    congr 1
    rw [dropThousandsDots, if_pos rfl]
    have : thousandsMatch (twoDigits (n % 100)) = false := rfl
    rw [this]
    simp only [Bool.false_eq_true, if_false]
    congr 1
    have := dropThousandsDots_digits_append (twoDigits (n % 100)) [] hcd
    simpa using this
  have hnocomma : replaceFirstComma (fixed2Str x) = fixed2Str x := by
    apply replaceFirstComma_nocomma
    intro a ha
    rw [hstr] at ha
    rcases List.mem_append.mp ha with h | h
    · exact isDigit_ne_comma (hipd a h)
    · rcases List.mem_cons.mp h with rfl | h
      · decide
      · exact isDigit_ne_comma (hcd a h)
  unfold parseEuro
  rw [hkeep, hdots, hnocomma, hstr,
    parseFloat_digits_dot _ _ (natChars_ne_nil _) hipd hcd,
    digitsToNat_natChars, digitsToNat_twoDigits (Nat.mod_lt _ (by norm_num))]
  have hlen : (twoDigits (n % 100)).length = 2 := rfl
  rw [hlen, natCast_div_add_mod_div]
  show ((n : ℕ) : ℚ) / 100 = round2 x
  unfold round2
  congr 1
  rw [hn, hxabs]
  exact_mod_cast Int.toNat_of_nonneg hfl

@[simp] theorem computeRowLine_qty (tr : Row) : (computeRowLine tr).qty = tr.qty := by
  cases h : tr.lineEl <;> simp [computeRowLine, h]

@[simp] theorem computeRowLine_unitAttr (tr : Row) : (computeRowLine tr).unitAttr = tr.unitAttr := by
  cases h : tr.lineEl <;> simp [computeRowLine, h]

@[simp] theorem computeRowLine_unitText (tr : Row) : (computeRowLine tr).unitText = tr.unitText := by
  cases h : tr.lineEl <;> simp [computeRowLine, h]

@[simp] theorem computeRowLine_inForm (tr : Row) : (computeRowLine tr).inForm = tr.inForm := by
  cases h : tr.lineEl <;> simp [computeRowLine, h]

@[simp] theorem computeRowLine_lineEl_isSome (tr : Row) :
    (computeRowLine tr).lineEl.isSome = tr.lineEl.isSome := by
  cases h : tr.lineEl <;> simp [computeRowLine, h]

theorem rowQty_computeRowLine (tr : Row) : rowQty (computeRowLine tr) = rowQty tr := by
  unfold rowQty qtyValueOr0
  rw [computeRowLine_qty]

theorem rowUnit_computeRowLine (tr : Row) : rowUnit (computeRowLine tr) = rowUnit tr := by
  unfold rowUnit rowUnitFallback
  rw [computeRowLine_unitAttr, computeRowLine_unitText]

theorem rowTotal_computeRowLine (tr : Row) : rowTotal (computeRowLine tr) = rowTotal tr := by
  unfold rowTotal
  rw [rowQty_computeRowLine, rowUnit_computeRowLine]

theorem computeRowLine_idem (tr : Row) : computeRowLine (computeRowLine tr) = computeRowLine tr := by
  cases h : tr.lineEl with
  | none =>
      have h1 : computeRowLine tr = tr := by simp [computeRowLine, h]
      rw [h1, h1]
  | some e =>
      have h2 : rowTotal
          { tr with lineEl := some (⟨formatEuro (rowTotal tr), some (toFixed2Str (rowTotal tr))⟩ : LineEl) } =
          rowTotal tr := rfl
      simp [computeRowLine, h, h2]

theorem updateAt_idem (f : Row → Row) (hf : ∀ a, f (f a) = f a) :
    ∀ (i : ℕ) (l : List Row), updateAt i f (updateAt i f l) = updateAt i f l
  | _, [] => by simp [updateAt]
  | 0, r :: rs => by simp [updateAt, hf r]
  | i + 1, r :: rs => by simp [updateAt, updateAt_idem f hf i rs]

theorem updateAt_getElem_ne (f : Row → Row) :
    ∀ (i j : ℕ) (l : List Row), j ≠ i → (updateAt i f l)[j]? = l[j]?
  | _, _, [], _ => by simp [updateAt]
  | 0, 0, r :: rs, h => absurd rfl h
  | 0, j + 1, r :: rs, _ => by simp [updateAt]
  | i + 1, 0, r :: rs, _ => by simp [updateAt]
  | i + 1, j + 1, r :: rs, h => by
      simp only [updateAt, List.getElem?_cons_succ]
      exact updateAt_getElem_ne f i j rs (fun hji => h (by omega))

theorem updateAt_getElem_self (f : Row → Row) :
    ∀ (i : ℕ) (l : List Row), (updateAt i f l)[i]? = (l[i]?).map f
  | _, [] => by simp [updateAt]
  | 0, r :: rs => by simp [updateAt]
  | i + 1, r :: rs => by
      simp only [updateAt, List.getElem?_cons_succ]
      exact updateAt_getElem_self f i rs

theorem foldl_add_eq_sum (v : LineEl → ℚ) :
    ∀ (l : List LineEl) (a : ℚ), l.foldl (fun s el => s + v el) a = a + (l.map v).sum
  | [], a => by simp
  | e :: t, a => by
      rw [List.foldl_cons, foldl_add_eq_sum v t (a + v e), List.map_cons, List.sum_cons]
      ring

theorem subtotalSum_eq_sum (rows : List Row) :
    subtotalSum rows = ((rows.filterMap Row.lineEl).map lineElVal).sum := by
  unfold subtotalSum
  rw [foldl_add_eq_sum lineElVal, zero_add]

/- ---------------------------------------------------------------------
Claim theorems.
--------------------------------------------------------------------- -/

/-- C1: after every local recompute (`computeRow` on any row of any rendered
document, in particular one from which a row was just removed), the displayed
cart subtotal is the currency-formatted sum of the stored `data-value`
readings (falling back to the display text) of all line totals currently in
the document — a function of the rendered lines only, not of any running
accumulator. -/
theorem computeRow_subtotal_eq_sum (d : Doc) (i : ℕ) (h : d.subText.isSome = true) :
    (computeRow d i).subText =
      some (formatEuro (some ((((computeRow d i).rows.filterMap Row.lineEl).map lineElVal).sum))) := by
  obtain ⟨t, ht⟩ := Option.isSome_iff_exists.mp h
  simp [computeRow, ht, subtotalSum_eq_sum]

/-- Witness for C1 on a concrete two-row cart. -/
theorem computeRow_subtotal_eq_sum_witness :
    docC1.subText.isSome = true ∧
    (computeRow docC1 0).subText =
      some (formatEuro (some ((((computeRow docC1 0).rows.filterMap Row.lineEl).map lineElVal).sum))) :=
  ⟨rfl, computeRow_subtotal_eq_sum docC1 0 rfl⟩

/-- C8: the local recompute is idempotent — running `computeRow` twice on the
same row with no intervening change produces exactly the same document (line
display, stored attribute and subtotal display) as running it once. -/
theorem computeRow_idempotent (d : Doc) (i : ℕ) :
    computeRow (computeRow d i) i = computeRow d i := by
  have hrows : updateAt i computeRowLine (updateAt i computeRowLine d.rows) =
      updateAt i computeRowLine d.rows :=
    updateAt_idem computeRowLine computeRowLine_idem i d.rows
  simp only [computeRow, hrows, Option.map_map]
  cases d.subText <;> rfl

/-- C9: the input-event handler does only the synchronous local recompute of
the affected line and the subtotal: it issues no network request, leaves every
other row untouched, and changes no row's quantity input value, `data-unit`
attribute or `.js-unit` text (the per-line unit price is immutable). -/
theorem updateAt_proj_eq {α : Type} (g : Row → α) (hg : ∀ tr, g (computeRowLine tr) = g tr)
    (i j : ℕ) (l : List Row) :
    ((updateAt i computeRowLine l)[j]?).map g = (l[j]?).map g := by
  rcases eq_or_ne j i with rfl | hj
  · rw [updateAt_getElem_self, Option.map_map]
    cases l[j]? with
    | none => rfl
    | some tr => simpa using hg tr
  · rw [updateAt_getElem_ne computeRowLine i j l hj]

theorem onInput_local_frame (d : Doc) (i : ℕ) :
    (onInput d (some i)).2 = [] ∧
    (∀ j, j ≠ i → ((onInput d (some i)).1).rows[j]? = d.rows[j]?) ∧
    (∀ j : ℕ, (((onInput d (some i)).1).rows[j]?).map Row.qty = (d.rows[j]?).map Row.qty) ∧
    (∀ j : ℕ, (((onInput d (some i)).1).rows[j]?).map Row.unitAttr = (d.rows[j]?).map Row.unitAttr) ∧
    (∀ j : ℕ, (((onInput d (some i)).1).rows[j]?).map Row.unitText = (d.rows[j]?).map Row.unitText) := by
  have hrows : ((onInput d (some i)).1).rows = updateAt i computeRowLine d.rows := rfl
  refine ⟨rfl, ?_, ?_, ?_, ?_⟩
  · intro j hj
    rw [hrows, updateAt_getElem_ne computeRowLine i j d.rows hj]
  · intro j
    rw [hrows]
    exact updateAt_proj_eq Row.qty computeRowLine_qty i j d.rows
  · intro j
    rw [hrows]
    exact updateAt_proj_eq Row.unitAttr computeRowLine_unitAttr i j d.rows
  · intro j
    rw [hrows]
    exact updateAt_proj_eq Row.unitText computeRowLine_unitText i j d.rows


/-- Witness for C9 at a concrete document, affected row 0, other row 1. -/
theorem onInput_local_frame_witness :
    (onInput docC9 (some 0)).2 = [] ∧
    ((onInput docC9 (some 0)).1).rows[1]? = docC9.rows[1]? ∧
    (((onInput docC9 (some 0)).1).rows[0]?).map Row.qty = (docC9.rows[0]?).map Row.qty :=
  ⟨(onInput_local_frame docC9 0).1,
   (onInput_local_frame docC9 0).2.1 1 (by decide),
   (onInput_local_frame docC9 0).2.2.1 0⟩

/-- C7: when the server sync of a committed quantity change fails (network
error or exception), or the reply lacks a truthy `ok` flag / the expected
shape, the document is exactly what the preceding local `computeRow` left —
no display, attribute or subtotal is touched and no error surfaces. -/
theorem onChange_failure_keeps_local (d : Doc) (i : ℕ) (tr : Row) (resp : SyncResp)
    (hrow : d.rows[i]? = some tr) (hform : tr.inForm = true)
    (hresp : resp = SyncResp.fail ∨ resp = SyncResp.notOk) :
    (onChange d (some i) resp).1 = computeRow d i := by
  rcases hresp with rfl | rfl <;> simp [onChange, hrow, hform, serverApply]


/-- Witness for C7: a concrete failing sync leaves the local result. -/
theorem onChange_failure_keeps_local_witness :
    docC7.rows[0]? = some ⟨some ("4".toList), some ("1,25".toList), none, some ⟨[], none⟩, true⟩ ∧
    (onChange docC7 (some 0) SyncResp.fail).1 = computeRow docC7 0 :=
  ⟨rfl, onChange_failure_keeps_local docC7 0
    ⟨some ("4".toList), some ("1,25".toList), none, some ⟨[], none⟩, true⟩
    SyncResp.fail rfl rfl (Or.inl rfl)⟩

/-- C6: a committed quantity change whose sync resolves with `ok` truthy and
both totals present overwrites the line display with the server's
pre-formatted string when supplied (nonempty) — otherwise with the locally
formatted parsed value —, the line's precision attribute with the parsed
value fixed to two decimals, and the subtotal display likewise. -/
theorem onChange_success_overwrites (d : Doc) (i : ℕ) (tr : Row)
    (lt st : List Char) (ltd std : Option (List Char))
    (hrow : d.rows[i]? = some tr) (hform : tr.inForm = true)
    (hline : tr.lineEl.isSome = true) (hsub : d.subText.isSome = true) :
    lineElAt ((onChange d (some i) (SyncResp.ok (some lt) ltd (some st) std)).1) i =
      some ⟨jsOrElse ltd (formatEuro (some (parseEuro lt))), some (fixed2Str (parseEuro lt))⟩ ∧
    ((onChange d (some i) (SyncResp.ok (some lt) ltd (some st) std)).1).subText =
      some (jsOrElse std (formatEuro (some (parseEuro st)))) := by
  obtain ⟨t0, ht0⟩ := Option.isSome_iff_exists.mp hsub
  obtain ⟨e0, he0⟩ := Option.isSome_iff_exists.mp hline
  have hcl : (computeRowLine tr).lineEl =
      some ⟨formatEuro (rowTotal tr), some (toFixed2Str (rowTotal tr))⟩ := by
    simp [computeRowLine, he0]
  have hchange : (onChange d (some i) (SyncResp.ok (some lt) ltd (some st) std)).1 =
      serverApply (computeRow d i) i (SyncResp.ok (some lt) ltd (some st) std) := by
    simp [onChange, hrow, hform]
  have hc : (computeRow d i).rows[i]? = some (computeRowLine tr) := by
    show (updateAt i computeRowLine d.rows)[i]? = _
    rw [updateAt_getElem_self, hrow]
    rfl
  have hsub1 : (computeRow d i).subText =
      some (formatEuro (some (subtotalSum (updateAt i computeRowLine d.rows)))) := by
    simp [computeRow, ht0]
  rw [hchange]
  constructor
  · show ((serverApply (computeRow d i) i
        (SyncResp.ok (some lt) ltd (some st) std)).rows[i]?).bind Row.lineEl = _
    simp only [serverApply]
    rw [updateAt_getElem_self, hc]
    simp [hcl]
  · simp only [serverApply]
    rw [hsub1]
    rfl


/-- Witness for C6: the spec's §8 example — local total 37.50, server replies
`{ ok: true, line_total: 36.00, subtotal: 38.49 }` with no display strings,
and the displays come to reflect 36.00 and 38.49. -/
theorem onChange_success_overwrites_witness :
    lineElAt ((onChange docC6 (some 0)
        (SyncResp.ok (some ("36.00".toList)) none (some ("38.49".toList)) none)).1) 0 =
      some ⟨jsOrElse none (formatEuro (some (parseEuro ("36.00".toList)))),
            some (fixed2Str (parseEuro ("36.00".toList)))⟩ ∧
    ((onChange docC6 (some 0)
        (SyncResp.ok (some ("36.00".toList)) none (some ("38.49".toList)) none)).1).subText =
      some (jsOrElse none (formatEuro (some (parseEuro ("38.49".toList))))) :=
  onChange_success_overwrites docC6 0
    ⟨some ("3".toList), some ("12,50".toList), none, some ⟨[], none⟩, true⟩
    ("36.00".toList) ("38.49".toList) none none rfl rfl rfl rfl

theorem rowQty_nonneg (tr : Row) (q : ℤ) (h : rowQty tr = some q) : 0 ≤ q := by
  unfold rowQty at h
  cases hp : parseIntJS (qtyValueOr0 tr) with
  | none => rw [hp] at h; simp at h
  | some z =>
      rw [hp] at h
      simp at h
      omega

/-- C4: for a row whose quantity input parses (to the non-negative integer
`q`) and whose unit price `p` (read preferring `data-unit` over the display
text) is non-negative, `computeRow` writes the currency-formatted product
`q * p` to the line display and stores the product rounded to two decimal
places in the line's `data-value` attribute. -/
theorem computeRowLine_total (tr : Row) (q : ℤ)
    (hq : rowQty tr = some q) (hp : 0 ≤ rowUnit tr) (hline : tr.lineEl.isSome = true) :
    (computeRowLine tr).lineEl =
      some ⟨euroFormat ((q : ℚ) * rowUnit tr), some (fixed2Str ((q : ℚ) * rowUnit tr))⟩ ∧
    parseEuro (fixed2Str ((q : ℚ) * rowUnit tr)) = round2 ((q : ℚ) * rowUnit tr) := by
  obtain ⟨e0, he0⟩ := Option.isSome_iff_exists.mp hline
  have hq0 : (0 : ℚ) ≤ (q : ℚ) := by exact_mod_cast rowQty_nonneg tr q hq
  have htot : rowTotal tr = some ((q : ℚ) * rowUnit tr) := by
    rw [rowTotal, hq]
    rfl
  refine ⟨?_, parseEuro_fixed2Str_nonneg _ (mul_nonneg hq0 hp)⟩
  simp [computeRowLine, he0, htot, formatEuro, toFixed2Str]

/-- Witness for C4 on the spec's example: quantity 3, unit 12.50 €. -/
theorem computeRowLine_total_witness :
    rowQty rowC4w = some 3 ∧ 0 ≤ rowUnit rowC4w ∧ rowC4w.lineEl.isSome = true ∧
    ((computeRowLine rowC4w).lineEl =
      some ⟨euroFormat ((3 : ℤ) * rowUnit rowC4w), some (fixed2Str ((3 : ℤ) * rowUnit rowC4w))⟩ ∧
     parseEuro (fixed2Str ((3 : ℤ) * rowUnit rowC4w)) = round2 ((3 : ℤ) * rowUnit rowC4w)) :=
  ⟨by decide, by decide, rfl, computeRowLine_total rowC4w 3 (by decide) (by decide) rfl⟩

/-- C2 counterexample: for the non-numeric quantity input `"abc"` the
effective quantity is NaN (`none`), not 0, and the stored attribute becomes
the string `"NaN"`, not a representation of the number 0. -/
theorem rowQty_abc_not_coerced :
    rowQty rowC2cex ≠ some 0 ∧
    (computeRowLine rowC2cex).lineEl.bind LineEl.value = some nanChars ∧
    nanChars ≠ fixed2Str 0 := by decide

/-- C2 (amended): a negative or empty quantity input parses and is clamped to
an effective quantity of 0, giving a displayed and stored line total of 0; a
non-numeric input instead yields NaN (`Math.max(0, NaN)` is NaN), upon which
the display still formats as € 0.00 and the stored attribute becomes the
string `"NaN"`, which the subtotal aggregation parses back as 0. -/
theorem computeRowLine_bad_qty (tr : Row) (hline : tr.lineEl.isSome = true) :
    (rowQty tr = some 0 →
      (computeRowLine tr).lineEl = some ⟨euroFormat 0, some (fixed2Str 0)⟩) ∧
    (rowQty tr = none →
      (computeRowLine tr).lineEl = some ⟨euroFormat 0, some nanChars⟩ ∧
      parseEuro nanChars = 0) := by
  obtain ⟨e0, he0⟩ := Option.isSome_iff_exists.mp hline
  constructor
  · intro hq
    have htot : rowTotal tr = some 0 := by
      rw [rowTotal, hq]
      simp
    simp [computeRowLine, he0, htot, formatEuro, toFixed2Str]
  · intro hq
    have htot : rowTotal tr = none := by
      rw [rowTotal, hq]
      rfl
    exact ⟨by simp [computeRowLine, he0, htot, formatEuro, toFixed2Str], by decide⟩

/-- Witness for C2 (amended) on the negative input `"-5"`. -/
theorem computeRowLine_bad_qty_witness :
    rowC2w.lineEl.isSome = true ∧ rowQty rowC2w = some 0 ∧
    (computeRowLine rowC2w).lineEl = some ⟨euroFormat 0, some (fixed2Str 0)⟩ :=
  ⟨rfl, by decide, (computeRowLine_bad_qty rowC2w rfl).1 (by decide)⟩

/-- C3 counterexample: quantity 1 at unit price 0.125 € gives the
full-precision product 1/8, but the stored `data-value` is the rounded
string `"0.13"`, whose parsed value is not 1/8 — the attribute does not
preserve full precision. -/
theorem storedValue_not_full_precision :
    rowTotal rowC3cex = some (1 / 8 : ℚ) ∧
    (computeRowLine rowC3cex).lineEl.bind LineEl.value = some ("0.13".toList) ∧
    parseEuro ("0.13".toList) ≠ (1 / 8 : ℚ) := by decide

/-- C3 (amended): the data attribute stores the product rounded to two
decimal places via `toFixed(2)` — the same rounding as the display, not the
full-precision product — so the subtotal re-aggregation reads the
two-decimal value. -/
theorem storedValue_rounded2 (tr : Row) (q : ℤ)
    (hq : rowQty tr = some q) (hp : 0 ≤ rowUnit tr) (hline : tr.lineEl.isSome = true) :
    (computeRowLine tr).lineEl.bind LineEl.value = some (fixed2Str ((q : ℚ) * rowUnit tr)) ∧
    parseEuro (fixed2Str ((q : ℚ) * rowUnit tr)) = round2 ((q : ℚ) * rowUnit tr) := by
  obtain ⟨e0, he0⟩ := Option.isSome_iff_exists.mp hline
  have hq0 : (0 : ℚ) ≤ (q : ℚ) := by exact_mod_cast rowQty_nonneg tr q hq
  have htot : rowTotal tr = some ((q : ℚ) * rowUnit tr) := by
    rw [rowTotal, hq]
    rfl
  refine ⟨?_, parseEuro_fixed2Str_nonneg _ (mul_nonneg hq0 hp)⟩
  simp [computeRowLine, he0, htot, toFixed2Str]

/-- Witness for C3 (amended): quantity 2 at unit 1.10 € stores `"2.20"`. -/
theorem storedValue_rounded2_witness :
    rowQty rowC3w = some 2 ∧ 0 ≤ rowUnit rowC3w ∧ rowC3w.lineEl.isSome = true ∧
    ((computeRowLine rowC3w).lineEl.bind LineEl.value =
      some (fixed2Str ((2 : ℤ) * rowUnit rowC3w)) ∧
     parseEuro (fixed2Str ((2 : ℤ) * rowUnit rowC3w)) = round2 ((2 : ℤ) * rowUnit rowC3w)) :=
  ⟨by decide, by decide, rfl, storedValue_rounded2 rowC3w 2 (by decide) (by decide) rfl⟩

theorem dot_not_digit : ('.' : Char).isDigit = false := by decide

theorem comma_not_digit : (',' : Char).isDigit = false := by decide

theorem replaceFirstComma_cons (c : Char) (t : List Char) :
    replaceFirstComma (c :: t) = if c = ',' then '.' :: t else c :: replaceFirstComma t := rfl

theorem replaceAllCommas_cons (c : Char) (t : List Char) :
    replaceAllCommas (c :: t) = (if c = ',' then '.' else c) :: replaceAllCommas t := rfl

theorem parseFloat_cons (c : Char) (rest : List Char) :
    parseFloat (c :: rest) =
      if c = '-' then (parseUnsigned rest).map (fun q => -q)
      else parseUnsigned (c :: rest) := rfl

theorem isDigit_commaToDot (c : Char) :
    (if c = ',' then '.' else c).isDigit = c.isDigit := by
  by_cases hc : c = ','
  · subst hc
    decide
  · rw [if_neg hc]

theorem takeWhile_replaceAllCommas (l : List Char) :
    (replaceAllCommas l).takeWhile Char.isDigit = l.takeWhile Char.isDigit := by
  induction l with
  | nil => rfl
  | cons c t ih =>
      rw [replaceAllCommas_cons]
      by_cases hd : c.isDigit
      · rw [List.takeWhile_cons_of_pos (by rw [isDigit_commaToDot]; exact hd),
          List.takeWhile_cons_of_pos hd, ih,
          if_neg (isDigit_ne_comma hd)]
      · rw [List.takeWhile_cons_of_neg (by rw [isDigit_commaToDot]; exact hd),
          List.takeWhile_cons_of_neg hd]

theorem dropWhile_replaceAllCommas (l : List Char) :
    (replaceAllCommas l).dropWhile Char.isDigit = replaceAllCommas (l.dropWhile Char.isDigit) := by
  induction l with
  | nil => rfl
  | cons c t ih =>
      rw [replaceAllCommas_cons]
      by_cases hd : c.isDigit
      · rw [List.dropWhile_cons_of_pos (by rw [isDigit_commaToDot]; exact hd),
          List.dropWhile_cons_of_pos hd, ih]
      · rw [List.dropWhile_cons_of_neg (by rw [isDigit_commaToDot]; exact hd),
          List.dropWhile_cons_of_neg hd, replaceAllCommas_cons]

theorem takeWhile_replaceFirstComma (l : List Char) :
    (replaceFirstComma l).takeWhile Char.isDigit = l.takeWhile Char.isDigit := by
  induction l with
  | nil => rfl
  | cons c t ih =>
      rw [replaceFirstComma_cons]
      by_cases hc : c = ','
      · subst hc
        rw [if_pos rfl,
          List.takeWhile_cons_of_neg (by rw [dot_not_digit]; exact Bool.false_ne_true),
          List.takeWhile_cons_of_neg (by rw [comma_not_digit]; exact Bool.false_ne_true)]
      · rw [if_neg hc]
        by_cases hd : c.isDigit
        · rw [List.takeWhile_cons_of_pos hd, List.takeWhile_cons_of_pos hd, ih]
        · rw [List.takeWhile_cons_of_neg hd, List.takeWhile_cons_of_neg hd]

theorem dropWhile_replaceFirstComma (l : List Char) :
    (replaceFirstComma l).dropWhile Char.isDigit = replaceFirstComma (l.dropWhile Char.isDigit) := by
  induction l with
  | nil => rfl
  | cons c t ih =>
      rw [replaceFirstComma_cons]
      by_cases hc : c = ','
      · subst hc
        rw [if_pos rfl,
          List.dropWhile_cons_of_neg (by rw [dot_not_digit]; exact Bool.false_ne_true),
          List.dropWhile_cons_of_neg (by rw [comma_not_digit]; exact Bool.false_ne_true),
          replaceFirstComma_cons, if_pos rfl]
      · rw [if_neg hc]
        by_cases hd : c.isDigit
        · rw [List.dropWhile_cons_of_pos hd, List.dropWhile_cons_of_pos hd, ih]
        · rw [List.dropWhile_cons_of_neg hd, List.dropWhile_cons_of_neg hd,
            replaceFirstComma_cons, if_neg hc]

theorem head?_replaceFC_AC (r : List Char) :
    (replaceFirstComma r).head? = (replaceAllCommas r).head? := by
  cases r with
  | nil => rfl
  | cons c t =>
      rw [replaceFirstComma_cons, replaceAllCommas_cons]
      by_cases hc : c = ','
      · rw [if_pos hc, if_pos hc]
        rfl
      · rw [if_neg hc, if_neg hc]
        rfl

theorem tail_takeWhile_replaceFC_AC (r : List Char) :
    (replaceFirstComma r).tail.takeWhile Char.isDigit =
      (replaceAllCommas r).tail.takeWhile Char.isDigit := by
  cases r with
  | nil => rfl
  | cons c t =>
      rw [replaceFirstComma_cons, replaceAllCommas_cons]
      by_cases hc : c = ','
      · rw [if_pos hc, if_pos hc, List.tail_cons, List.tail_cons, takeWhile_replaceAllCommas]
      · rw [if_neg hc, if_neg hc, List.tail_cons, List.tail_cons,
          takeWhile_replaceFirstComma, takeWhile_replaceAllCommas]

theorem parseUnsigned_congr (l1 l2 : List Char)
    (ht : l1.takeWhile Char.isDigit = l2.takeWhile Char.isDigit)
    (hh : (l1.dropWhile Char.isDigit).head? = (l2.dropWhile Char.isDigit).head?)
    (hf : (l1.dropWhile Char.isDigit).tail.takeWhile Char.isDigit =
          (l2.dropWhile Char.isDigit).tail.takeWhile Char.isDigit) :
    parseUnsigned l1 = parseUnsigned l2 := by
  unfold parseUnsigned
  rw [ht, hh, hf]

theorem parseUnsigned_replaceComma (l : List Char) :
    parseUnsigned (replaceFirstComma l) = parseUnsigned (replaceAllCommas l) := by
  apply parseUnsigned_congr
  · rw [takeWhile_replaceFirstComma, takeWhile_replaceAllCommas]
  · rw [dropWhile_replaceFirstComma, dropWhile_replaceAllCommas, head?_replaceFC_AC]
  · rw [dropWhile_replaceFirstComma, dropWhile_replaceAllCommas, tail_takeWhile_replaceFC_AC]

theorem parseFloat_replaceComma (l : List Char) :
    parseFloat (replaceFirstComma l) = parseFloat (replaceAllCommas l) := by
  cases l with
  | nil => rfl
  | cons c t =>
      have hm := parseUnsigned_replaceComma (c :: t)
      rw [replaceFirstComma_cons, replaceAllCommas_cons] at hm ⊢
      by_cases hc : c = ','
      · subst hc
        rw [if_pos rfl, if_pos rfl] at hm ⊢
        rw [parseFloat_cons, parseFloat_cons,
          if_neg (by decide : ¬('.' : Char) = '-'), if_neg (by decide : ¬('.' : Char) = '-')]
        exact hm
      · rw [if_neg hc, if_neg hc] at hm ⊢
        by_cases hminus : c = '-'
        · subst hminus
          rw [parseFloat_cons, parseFloat_cons, if_pos rfl, if_pos rfl,
            parseUnsigned_replaceComma]
        · rw [parseFloat_cons, parseFloat_cons, if_neg hminus, if_neg hminus]
          exact hm

/-- C5: `parseEuro` realises exactly the parsing pipeline the spec describes —
keep only digits, comma, dot and minus; drop each dot followed by exactly
three digits; treat any remaining comma as the decimal separator; return 0
instead of raising when the remainder is not a finite number.  (The code
replaces only the first comma, the spec's wording replaces them all; the two
agree on every input because `parseFloat` never reads past a second
separator.) -/
theorem parseEuro_eq_spec (s : List Char) : parseEuro s = parseEuroSpec s := by
  unfold parseEuro parseEuroSpec
  rw [parseFloat_replaceComma]

theorem dropThousandsDots_cons (c : Char) (rest : List Char) :
    dropThousandsDots (c :: rest) =
      if c = '.' then
        (if thousandsMatch rest then dropThousandsDots rest
         else '.' :: dropThousandsDots rest)
      else c :: dropThousandsDots rest := rfl

theorem mem_groupLE : ∀ (l : List Char) (c : Char), c ∈ groupLE l → c ∈ l ∨ c = '.'
  | a :: b :: cc :: d :: rest, c, h => by
      rw [groupLE] at h
      rcases List.mem_cons.mp h with rfl | h
      · exact Or.inl (by simp)
      rcases List.mem_cons.mp h with rfl | h
      · exact Or.inl (by simp)
      rcases List.mem_cons.mp h with rfl | h
      · exact Or.inl (by simp)
      rcases List.mem_cons.mp h with rfl | h
      · exact Or.inr rfl
      · rcases mem_groupLE (d :: rest) c h with h | h
        · exact Or.inl (by simp only [List.mem_cons] at h ⊢; tauto)
        · exact Or.inr h
  | [], c, h => Or.inl h
  | [a], c, h => Or.inl h
  | [a, b], c, h => Or.inl h
  | [a, b, cc], c, h => Or.inl h

theorem mem_groupedNatChars (m : ℕ) (c : Char) (h : c ∈ groupedNatChars m) :
    c.isDigit = true ∨ c = '.' := by
  unfold groupedNatChars at h
  rw [List.mem_reverse] at h
  rcases mem_groupLE _ c h with h | h
  · rw [List.mem_reverse] at h
    exact Or.inl (mem_natChars_isDigit m c h)
  · exact Or.inr h

theorem replaceFirstComma_nocomma_append {ds : List Char} (s : List Char)
    (h : ∀ a ∈ ds, a ≠ ',') :
    replaceFirstComma (ds ++ s) = ds ++ replaceFirstComma s := by
  induction ds with
  | nil => rfl
  | cons a t ih =>
      rw [List.cons_append, replaceFirstComma_cons, if_neg (h a (by simp)),
        ih (fun b hb => h b (by simp [hb])), List.cons_append]

theorem dropThousandsDots_groupLE (led : List Char) :
    (∀ c ∈ led, c.isDigit = true) →
      ∀ s : List Char, thousandsTail s = true →
        dropThousandsDots ((groupLE led).reverse ++ s) =
          led.reverse ++ dropThousandsDots s := by
  induction led using groupLE.induct with
  | case1 a b c d rest ih =>
      intro h s hs
      have hd : ∀ x ∈ (d :: rest), x.isDigit = true := by
        intro x hx
        apply h
        simp only [List.mem_cons] at hx ⊢
        tauto
      have ha : a.isDigit = true := h a (by simp)
      have hb : b.isDigit = true := h b (by simp)
      have hc : c.isDigit = true := h c (by simp)
      have key := ih hd ('.' :: c :: b :: a :: s)
        (show (!Char.isDigit '.') = true by decide)
      have hshape : (groupLE (a :: b :: c :: d :: rest)).reverse ++ s =
          (groupLE (d :: rest)).reverse ++ ('.' :: c :: b :: a :: s) := by
        rw [groupLE]
        simp [List.reverse_cons, List.append_assoc]
      have htm : thousandsMatch (c :: b :: a :: s) = true := by
        show (c.isDigit && b.isDigit && a.isDigit && thousandsTail s) = true
        rw [ha, hb, hc, hs]
        rfl
      have hdig : ∀ x ∈ [c, b, a], x.isDigit = true := by
        intro x hx
        rcases List.mem_cons.mp hx with rfl | hx
        · exact hc
        rcases List.mem_cons.mp hx with rfl | hx
        · exact hb
        rcases List.mem_cons.mp hx with rfl | hx
        · exact ha
        · simp at hx
      have hstep : dropThousandsDots ('.' :: c :: b :: a :: s) =
          c :: b :: a :: dropThousandsDots s := by
        rw [dropThousandsDots_cons, if_pos rfl, if_pos htm]
        have := dropThousandsDots_digits_append [c, b, a] s hdig
        simpa using this
      rw [hshape, key, hstep]
      simp [List.reverse_cons, List.append_assoc]
  | case2 =>
      intro h s hs
      exact dropThousandsDots_digits_append _ s (fun x hx => h x (List.mem_reverse.mp hx))
  | case3 a =>
      intro h s hs
      exact dropThousandsDots_digits_append _ s (fun x hx => h x (List.mem_reverse.mp hx))
  | case4 a b =>
      intro h s hs
      exact dropThousandsDots_digits_append _ s (fun x hx => h x (List.mem_reverse.mp hx))
  | case5 a b c =>
      intro h s hs
      exact dropThousandsDots_digits_append _ s (fun x hx => h x (List.mem_reverse.mp hx))

theorem dropThousandsDots_groupedNatChars (m : ℕ) (s : List Char)
    (hs : thousandsTail s = true) :
    dropThousandsDots (groupedNatChars m ++ s) = natChars m ++ dropThousandsDots s := by
  have h := dropThousandsDots_groupLE ((natChars m).reverse)
    (fun c hc => mem_natChars_isDigit m c (List.mem_reverse.mp hc)) s hs
  rw [List.reverse_reverse] at h
  exact h

theorem parseEuro_formatted (ip cents : ℕ) (hc : cents < 100) :
    parseEuro (groupedNatChars ip ++ ',' :: twoDigits cents ++ [nbsp, '€']) =
      (ip : ℚ) + (cents : ℚ) / 100 := by
  have hcd : ∀ c ∈ twoDigits cents, c.isDigit = true := mem_twoDigits_isDigit hc
  have hk1 : keepEuroChars (groupedNatChars ip) = groupedNatChars ip := by
    apply keepEuroChars_all
    intro a ha
    rcases mem_groupedNatChars ip a ha with h | rfl
    · simp [h]
    · simp
  have hk2 : keepEuroChars (',' :: twoDigits cents) = ',' :: twoDigits cents := by
    apply keepEuroChars_all
    intro a ha
    rcases List.mem_cons.mp ha with rfl | ha
    · simp
    · simp [hcd a ha]
  have hk3 : keepEuroChars [nbsp, '€'] = [] := by decide
  have hkeep : keepEuroChars (groupedNatChars ip ++ ',' :: twoDigits cents ++ [nbsp, '€']) =
      groupedNatChars ip ++ ',' :: twoDigits cents := by
    unfold keepEuroChars at hk1 hk2 hk3 ⊢
    rw [List.filter_append, List.filter_append, hk1, hk2, hk3, List.append_nil]
  have hdots : dropThousandsDots (groupedNatChars ip ++ ',' :: twoDigits cents) =
      natChars ip ++ ',' :: twoDigits cents := by
    rw [dropThousandsDots_groupedNatChars ip (',' :: twoDigits cents)
      (show (!Char.isDigit ',') = true by decide)]
    congr 1
    rw [dropThousandsDots_cons, if_neg (by decide : ¬(',' : Char) = '.')]
    congr 1
    have := dropThousandsDots_digits_append (twoDigits cents) [] hcd
    simpa using this
  have hcomma : replaceFirstComma (natChars ip ++ ',' :: twoDigits cents) =
      natChars ip ++ '.' :: twoDigits cents := by
    rw [replaceFirstComma_nocomma_append _
      (fun a ha => isDigit_ne_comma (mem_natChars_isDigit ip a ha)),
      replaceFirstComma_cons, if_pos rfl]
  unfold parseEuro
  rw [hkeep, hdots, hcomma,
    parseFloat_digits_dot _ _ (natChars_ne_nil _) (mem_natChars_isDigit ip) hcd,
    digitsToNat_natChars, digitsToNat_twoDigits hc]
  show (ip : ℚ) + (cents : ℚ) / 10 ^ (twoDigits cents).length = (ip : ℚ) + (cents : ℚ) / 100
  norm_num [twoDigits]

/-- C10: formatting a finite non-negative number as de-DE Euro currency and
parsing it back with `parseEuro` recovers exactly the number rounded to two
decimal places — including amounts of 1000 € and more, whose formatting
contains thousands-grouping dots that the parser must drop. -/
theorem parseEuro_formatEuro_roundtrip (x : ℚ) (hx : 0 ≤ x) :
    parseEuro (formatEuro (some x)) = round2 x := by
  have hxabs : |x| = x := abs_of_nonneg hx
  have hfl : (0 : ℤ) ≤ ⌊100 * x + 1 / 2⌋ := by
    apply Int.floor_nonneg.mpr
    positivity
  set n : ℕ := (⌊100 * |x| + 1 / 2⌋).toNat with hn
  have hstr : formatEuro (some x) =
      groupedNatChars (n / 100) ++ ',' :: twoDigits (n % 100) ++ [nbsp, '€'] := by
    show euroFormat x = _
    unfold euroFormat
    rw [if_neg (not_lt.mpr hx)]
    rfl
  rw [hstr, parseEuro_formatted _ _ (Nat.mod_lt _ (by norm_num)), natCast_div_add_mod_div_q]
  unfold round2
  congr 1
  rw [hn, hxabs]
  exact_mod_cast Int.toNat_of_nonneg hfl

/-- Witness for C10 at 1234.50 €, whose formatting contains a grouping dot. -/
theorem parseEuro_formatEuro_roundtrip_witness :
    (0 : ℚ) ≤ 2469 / 2 ∧ parseEuro (formatEuro (some (2469 / 2))) = round2 (2469 / 2) :=
  ⟨by norm_num, parseEuro_formatEuro_roundtrip (2469 / 2) (by norm_num)⟩

end Shop
